import Mathlib

/-!
Verification of the `emacs` package (leep-frog/emacs): the argument
interpretation and command-construction engine.

The repository contains two historical versions of the package:
* `V1` — the version built on the `command` framework (`emacs.go`, first
  part): `OpenEditor` receives the token list and a parallel list of line
  numbers already separated by the framework, short-circuits to `cd` for a
  single directory token, checks file existence unless the `new` flag is
  set, and appends the rendered command to the bounded history inside the
  deferred executor.
* `V2` — the version built on the `commands` framework (`emacs.go`, second
  part): `OpenEditor` itself pairs tokens with following integer tokens
  via `strconv.Atoi`, and the alias table maps a name to a single path
  (`AddAlias` / `DeleteAliases`).

`basic.go` holds the renderers `basic` (direct mode) and `daemon`
(daemon mode; the later revisions reject the `--debug-init` option).

Go maps are modelled as association lists (`List (String × _)` with
`List.lookup`); filesystem calls (`os.Stat`, `filepath.Abs`) are consumed
as capability oracles passed in as function arguments, as the spec
prescribes. Error returns through `output.Stderr` / `cos.Stderr` are
modelled as an `Option String` (or collected warning list) in an explicit
result record that also carries the possibly-updated state, so that the
error paths visibly leave the state unchanged exactly where the Go code
returns before mutating.
-/

namespace EmacsRepo

/-- `fileOpts` from `emacs.go`: a resolved (path, line number) pair.
Go zero-initialises `lineNumber` to 0, which means "no line flag". -/
structure fileOpts where
  name : String
  lineNumber : Int
deriving Repr, DecidableEq

/-! ### `strconv.Atoi`

Go's `strconv.Atoi(s)` parses an optional leading `+` or `-` sign followed
by one or more base-10 digits; any other character, an empty digit string,
or a value outside the signed 64-bit range yields an error (modelled as
`none`). -/

/-- Numeric value of a digit string, most significant digit first. -/
def digitsVal (cs : List Char) : Nat :=
  cs.foldl (fun acc c => acc * 10 + (c.toNat - '0'.toNat)) 0

/-- Largest value of Go's 64-bit `int`. -/
def int64Max : Int := 9223372036854775807

/-- Smallest value of Go's 64-bit `int`. -/
def int64Min : Int := -9223372036854775808

/-- `strconv.Atoi`: base-10 signed integer parse, `none` on any error. -/
def atoi (s : String) : Option Int :=
  match s.toList with
  | [] => none
  | c :: rest =>
    let neg : Bool := c = '-'
    let ds : List Char := if c = '-' ∨ c = '+' then rest else c :: rest
    if ds = [] ∨ ¬ ds.all Char.isDigit then none
    else
      let v : Int := if neg then -(digitsVal ds : Int) else (digitsVal ds : Int)
      if int64Min ≤ v ∧ v ≤ int64Max then some v else none

/-! ### Renderers (`basic.go`) -/

/-- The body of the direct-mode rendering loop shared by `basic` and the
inline rendering in `V1.OpenEditor`: `r` is the accumulator the Go code
appends into; each spec contributes its `+line` flag (when the line number
is non-zero) immediately followed by its path. -/
def basicLoop : List String → List fileOpts → List String
  | r, [] => r
  | r, f :: rest =>
    basicLoop
      ((r ++ if f.lineNumber ≠ 0 then ["+" ++ toString f.lineNumber] else []) ++ [f.name])
      rest

/-- `basic` (`basic.go`, direct mode): starts from
`["emacs", "--no-window-system"]` and runs the rendering loop over the
specs in reverse order (`for i := len(fos) - 1; i >= 0; i--`). -/
def basic (fos : List fileOpts) : List String :=
  basicLoop ["emacs", "--no-window-system"] fos.reverse

/-- The token sequence one spec contributes in direct mode, as the claim
words it: the `+n` token when `n ≠ 0`, immediately before the path. -/
def renderOne (f : fileOpts) : List String :=
  (if f.lineNumber ≠ 0 then ["+" ++ toString f.lineNumber] else []) ++ [f.name]

/-- The elisp expression list built by `daemon`: one `(find-file "path")`
per spec — `find-file-other-window` from the second spec on — each followed
by its `(goto-line n)` when the line number is non-zero. -/
def daemonCmds : String → List fileOpts → List String
  | _, [] => []
  | findCmd, fo :: rest =>
    ("(" ++ findCmd ++ " \"" ++ fo.name ++ "\")") ::
      ((if fo.lineNumber ≠ 0 then ["(goto-line " ++ toString fo.lineNumber ++ ")"] else []) ++
        daemonCmds "find-file-other-window" rest)

/-- `daemon` (`basic.go`, daemon mode, `([]string, error)` revision): fails
when `debugInit` is set; otherwise wraps the per-spec expressions (plus
`(other-window 1)` when exactly two files are opened) into a single
`emacsclient` invocation. -/
def daemon (debugInit : Bool) (fos : List fileOpts) : Except String (List String) :=
  if debugInit then
    .error "--debug-init flag is not allowed in daemon mode"
  else
    let eCmds := daemonCmds "find-file" fos ++
      (if fos.length = 2 then ["(other-window 1)"] else [])
    .ok ["emacsclient", "-t", "-e", "'(progn " ++ String.join eCmds ++ ")'"]

/-! ### History ledger -/

/-- Default history capacity (`historyLimit` package variable). -/
def historyLimit : Nat := 25

/-- The ledger update both versions of `OpenEditor` perform:
`e.PreviousExecutions = append(e.PreviousExecutions, cmd)` followed by
truncation `e.PreviousExecutions[len-limit:]` when the length exceeds the
limit. -/
def ledgerAppend (limit : Nat) (prev : List (List String)) (cmd : List String) :
    List (List String) :=
  let p := prev ++ [cmd]
  if p.length > limit then p.drop (p.length - limit) else p

namespace V2

/-! ### Token pairing (`OpenEditor`, `commands`-framework version)

The Go loop keeps an open `fo *fileOpts`; each token either opens a new
pair (when none is open), attaches as the line number of the open pair
(when it parses via `Atoi`), or closes the open pair and opens a new one.
A still-open pair is flushed at the end. -/

/-- The body of the pairing loop: the `Option fileOpts` argument is the
`fo` variable (the currently open filename, `none` when no pair is open). -/
def pairLoop : List String → Option fileOpts → List fileOpts
  | [], none => []
  | [], some fo => [fo]
  | erg :: rest, none => pairLoop rest (some ⟨erg, 0⟩)
  | erg :: rest, some fo =>
    match atoi erg with
    | none => fo :: pairLoop rest (some ⟨erg, 0⟩)
    | some n => ⟨fo.name, n⟩ :: pairLoop rest none

/-- `interpret`: the file/line pairing pass of `OpenEditor` over the raw
token list `ergs` (loop starts with no open pair). -/
def interpret (ergs : List String) : List fileOpts :=
  pairLoop ergs none

/-- Restatement of the claimed pairing rule, written from the spec's words:
the first token is a filename; a token that parses as a base-10 integer and
directly follows a filename that has not yet absorbed an integer is consumed
as that filename's line number; every other token (including a bare integer
whose preceding filename already absorbed one) starts a new filename. -/
def interpretSpec : List String → List fileOpts
  | [] => []
  | [f] => [⟨f, 0⟩]
  | f :: t :: rest =>
    match atoi t with
    | some n => ⟨f, n⟩ :: interpretSpec rest
    | none => ⟨f, 0⟩ :: interpretSpec (t :: rest)

/-- Number of tokens consumed as line numbers (attached integers) under the
claimed pairing rule. -/
def attachedCount : List String → Nat
  | [] => 0
  | [_] => 0
  | _ :: t :: rest =>
    match atoi t with
    | some _ => attachedCount rest + 1
    | none => attachedCount (t :: rest)

/-! ### Session state and alias mutations (`commands`-framework version) -/

/-- The `Emacs` struct of the `commands`-framework version:
`Aliases map[string]string` (association list), `PreviousExecutions`
(each record reduced to its `Executable` argv), and the `changed` dirty
flag. -/
structure Emacs where
  aliases : List (String × String)
  previousExecutions : List (List String)
  changed : Bool
deriving Repr, DecidableEq

/-- Result of `AddAlias`: the error message written to stderr (if any; the
Go method returns `false` exactly when this is `some`) and the state after
the call. -/
structure AddResult where
  err : Option String
  state : Emacs
deriving Repr, DecidableEq

/-- `AddAlias`: rejects an already-bound alias, then stats the file (oracle
`osStat`, returning the error text or whether the path is a directory),
rejects directories, resolves the absolute path (oracle `filepathAbs`), and
only then inserts the binding and sets the dirty flag. -/
def addAlias (osStat : String → Except String Bool)
    (filepathAbs : String → Except String String)
    (e : Emacs) (aliasName filename : String) : AddResult :=
  match List.lookup aliasName e.aliases with
  | some f => ⟨some ("alias already defined: (" ++ aliasName ++ ": " ++ f ++ ")"), e⟩
  | none =>
    match osStat filename with
    | .error msg => ⟨some ("error with file: " ++ msg), e⟩
    | .ok isDir =>
      if isDir then ⟨some (filename ++ " is a directory"), e⟩
      else
        match filepathAbs filename with
        | .error msg => ⟨some ("failed to get absolute file path: " ++ msg), e⟩
        | .ok absPath =>
          ⟨none, { e with aliases := e.aliases ++ [(aliasName, absPath)], changed := true }⟩

/-- Result of `DeleteAliases`: the warnings written to stderr (one per
missing alias, in order), the state after the call, and the returned
success flag. -/
structure DelResult where
  warnings : List String
  state : Emacs
  ok : Bool
deriving Repr, DecidableEq

/-- The loop of `DeleteAliases`: a missing alias appends a warning; an
existing one is removed from the table (`delete(e.Aliases, alias)`) and the
dirty flag is set. -/
def deleteAliasesGo : List String → Emacs → List String → List String × Emacs
  | [], e, warns => (warns, e)
  | a :: rest, e, warns =>
    match List.lookup a e.aliases with
    | none =>
      deleteAliasesGo rest e (warns ++ ["alias \"" ++ a ++ "\" does not exist"])
    | some _ =>
      deleteAliasesGo rest
        { e with aliases := e.aliases.eraseP (fun p => p.1 == a), changed := true }
        warns

/-- `DeleteAliases`: runs the loop over the whole batch and always returns
success (`return nil, true`). -/
def deleteAliases (e : Emacs) (aliases : List String) : DelResult :=
  let we := deleteAliasesGo aliases e []
  ⟨we.1, we.2, true⟩

end V2

namespace V1

/-- The `Emacs` struct of the `command`-framework version:
`Aliases map[string]map[string][]string` (nested association lists),
`PreviousExecutions [][]string`, and the `changed` dirty flag. `OpenEditor`
never touches `Aliases` (alias expansion is the framework's `AliasNode`). -/
structure Emacs where
  aliases : List (String × List (String × List String))
  previousExecutions : List (List String)
  changed : Bool
deriving Repr, DecidableEq

/-- Result of one `OpenEditor` call, including the deferred executor: the
error message written to stderr (if any), the `eData.Executable` entries
appended, and the session state after the framework has also run the
deferred `eData.Executor` on success (which is where the ledger append and
the dirty flag live). -/
structure OpenResult where
  err : Option String
  executable : List (List String)
  state : Emacs
deriving Repr, DecidableEq

/-- The reverse file-collection loop of `V1.OpenEditor`
(`for i := len(ergs) - 1; i >= 0; i--`): checks existence via the `statF`
oracle (`none` models `os.Stat` failing with a not-exist error) unless the
`new` flag is set, and pairs `ergs[i]` with `il[i]` (0 when `il` is too
short). The counter argument is `i + 1`. -/
def buildFilesGo (statF : String → Option Bool) (allowNewFiles : Bool)
    (ergs : List String) (il : List Int) :
    Nat → List fileOpts → Except String (List fileOpts)
  | 0, acc => .ok acc
  | i + 1, acc =>
    let erg := ergs.getD i ""
    if allowNewFiles = false ∧ statF erg = none then
      .error ("file \"" ++ erg ++ "\" does not exist; include \"new\" flag to create it")
    else
      buildFilesGo statF allowNewFiles ergs il i (acc ++ [⟨erg, il.getD i 0⟩])

/-- File collection over all of `ergs`, last token first. -/
def buildFiles (statF : String → Option Bool) (allowNewFiles : Bool)
    (ergs : List String) (il : List Int) : Except String (List fileOpts) :=
  buildFilesGo statF allowNewFiles ergs il ergs.length []

/-- `V1.OpenEditor`: with no tokens, replay the last ledger entry (error if
the ledger is empty); with a single token naming a directory (`statF`
returning `some true`), emit `cd`; otherwise collect the files (failing on
a missing file without the `new` flag), render the direct-mode command, and
— in the deferred executor, i.e. only on success — set the dirty flag and
append the command to the bounded ledger. -/
def openEditor (statF : String → Option Bool) (allowNewFiles : Bool)
    (ergs : List String) (il : List Int) (e : Emacs) : OpenResult :=
  if ergs = [] then
    if e.previousExecutions = [] then
      ⟨some "no previous executions", [], e⟩
    else
      ⟨none, [e.previousExecutions.getLastD []], e⟩
  else if ergs.length = 1 ∧ statF (ergs.getD 0 "") = some true then
    ⟨none, [["cd", ergs.getD 0 ""]], e⟩
  else
    match buildFiles statF allowNewFiles ergs il with
    | .error msg => ⟨some msg, [], e⟩
    | .ok files =>
      let cmd := basicLoop ["emacs", "--no-window-system"] files
      ⟨none, [cmd],
        { e with
          changed := true,
          previousExecutions := ledgerAppend historyLimit e.previousExecutions cmd }⟩

end V1

/-! ## Helper lemmas -/

theorem pairLoop_eq_spec (ergs : List String) :
    V2.pairLoop ergs none = V2.interpretSpec ergs ∧
    ∀ f, V2.pairLoop ergs (some ⟨f, 0⟩) = V2.interpretSpec (f :: ergs) := by
  induction ergs with
  | nil => exact ⟨rfl, fun f => rfl⟩
  | cons t rest ih =>
    refine ⟨ih.2 t, ?_⟩
    intro f
    show (match atoi t with
          | none => (⟨f, 0⟩ : fileOpts) :: V2.pairLoop rest (some ⟨t, 0⟩)
          | some n => (⟨f, n⟩ : fileOpts) :: V2.pairLoop rest none) =
         V2.interpretSpec (f :: t :: rest)
    cases h : atoi t with
    | none => simp only [V2.interpretSpec, h, ih.2 t]
    | some n => simp only [V2.interpretSpec, h, ih.1]

theorem interpretSpec_length :
    ∀ (n : Nat) (ergs : List String), ergs.length ≤ n →
      (V2.interpretSpec ergs).length + V2.attachedCount ergs = ergs.length := by
  intro n
  induction n with
  | zero =>
    intro ergs h
    have : ergs = [] := List.length_eq_zero.mp (Nat.le_zero.mp h)
    subst this; rfl
  | succ n ih =>
    intro ergs h
    match ergs with
    | [] => rfl
    | [f] => rfl
    | f :: t :: rest =>
      cases hA : atoi t with
      | some m =>
        have hr : rest.length ≤ n := by
          simp only [List.length_cons] at h; omega
        have := ih rest hr
        simp only [V2.interpretSpec, V2.attachedCount, hA, List.length_cons]
        omega
      | none =>
        have hr : (t :: rest).length ≤ n := by
          simp only [List.length_cons] at h ⊢; omega
        have := ih (t :: rest) hr
        simp only [V2.interpretSpec, V2.attachedCount, hA, List.length_cons] at this ⊢
        omega

theorem basicLoop_eq_append :
    ∀ (l : List fileOpts) (r : List String),
      basicLoop r l = r ++ (l.map renderOne).flatten := by
  intro l
  induction l with
  | nil => intro r; simp [basicLoop]
  | cons f rest ih =>
    intro r
    show basicLoop ((r ++ if f.lineNumber ≠ 0 then ["+" ++ toString f.lineNumber] else []) ++ [f.name]) rest = _
    rw [ih]
    simp [renderOne, List.append_assoc]

theorem buildFilesGo_error (statF : String → Option Bool) (il : List Int)
    (ergs : List String) (m : String) :
    ∀ (n : Nat) (acc : List fileOpts), n ≤ ergs.length →
      (ergs.take n).reverse.find? (fun g => (statF g).isNone) = some m →
      V1.buildFilesGo statF false ergs il n acc =
        .error ("file \"" ++ m ++ "\" does not exist; include \"new\" flag to create it") := by
  intro n
  induction n with
  | zero => intro acc _ hf; simp at hf
  | succ i ih =>
    intro acc hn hf
    have hi : i < ergs.length := by omega
    have htake : ergs.take (i + 1) = ergs.take i ++ [ergs[i]] := by
      rw [List.take_succ]
      simp [List.getElem?_eq_getElem hi]
    rw [htake, List.reverse_append, List.reverse_singleton, List.singleton_append] at hf
    have hgd : ergs.getD i "" = ergs[i] := by
      simp [List.getD_eq_getElem?_getD, List.getElem?_eq_getElem hi]
    have hgd2 : ergs[i]?.getD "" = ergs[i] := by
      simp [List.getElem?_eq_getElem hi]
    by_cases hb : statF ergs[i] = none
    · simp [List.find?, hb] at hf
      subst hf
      simp only [V1.buildFilesGo]
      simp [hgd, hgd2, hb]
    · cases ho : statF ergs[i] with
      | none => exact absurd ho hb
      | some b =>
        simp [List.find?, ho] at hf
        simp only [V1.buildFilesGo]
        rw [hgd, ho]
        rw [if_neg (by simp)]
        exact ih _ (by omega) hf

theorem lookup_eq_none_of_not_mem_keys (l : List (String × String)) (a : String)
    (h : a ∉ l.map Prod.fst) : List.lookup a l = none := by
  induction l with
  | nil => rfl
  | cons p rest ih =>
    obtain ⟨b, v⟩ := p
    simp only [List.map_cons, List.mem_cons] at h
    push_neg at h
    have hb : (a == b) = false := beq_eq_false_iff_ne.mpr h.1
    simp [List.lookup, hb, ih h.2]

theorem lookup_eraseP_ne (l : List (String × String)) (k a : String) (h : k ≠ a) :
    List.lookup k (l.eraseP (fun p => p.1 == a)) = List.lookup k l := by
  induction l with
  | nil => rfl
  | cons p rest ih =>
    obtain ⟨b, v⟩ := p
    by_cases hb : b = a
    · subst hb
      rw [List.eraseP_cons_of_pos (by simp)]
      have hk : (k == b) = false := beq_eq_false_iff_ne.mpr h
      simp [List.lookup, hk]
    · rw [List.eraseP_cons_of_neg (by simp [hb])]
      cases hkb : (k == b) with
      | true => simp [List.lookup, hkb]
      | false => simp [List.lookup, hkb, ih]

theorem lookup_eraseP_self (l : List (String × String)) (a : String)
    (h : (l.map Prod.fst).Nodup) :
    List.lookup a (l.eraseP (fun p => p.1 == a)) = none := by
  induction l with
  | nil => rfl
  | cons p rest ih =>
    obtain ⟨b, v⟩ := p
    simp only [List.map_cons, List.nodup_cons] at h
    by_cases hb : b = a
    · subst hb
      rw [List.eraseP_cons_of_pos (by simp)]
      exact lookup_eq_none_of_not_mem_keys rest b h.1
    · rw [List.eraseP_cons_of_neg (by simp [hb])]
      have hab : (a == b) = false := beq_eq_false_iff_ne.mpr (Ne.symm hb)
      simp [List.lookup, hab, ih h.2]

theorem keys_nodup_eraseP (l : List (String × String)) (p : String × String → Bool)
    (h : (l.map Prod.fst).Nodup) : ((l.eraseP p).map Prod.fst).Nodup :=
  List.Nodup.sublist (List.Sublist.map Prod.fst (List.eraseP_sublist l)) h

theorem deleteAliasesGo_spec :
    ∀ (names : List String) (e : V2.Emacs) (warns : List String),
      (e.aliases.map Prod.fst).Nodup → names.Nodup →
      (∀ n ∈ names, List.lookup n (V2.deleteAliasesGo names e warns).2.aliases = none) ∧
      (∀ k, k ∉ names →
        List.lookup k (V2.deleteAliasesGo names e warns).2.aliases =
          List.lookup k e.aliases) ∧
      (V2.deleteAliasesGo names e warns).1 =
        warns ++ (names.filter (fun n => (List.lookup n e.aliases).isNone)).map
          (fun n => "alias \"" ++ n ++ "\" does not exist") := by
  intro names
  induction names with
  | nil =>
    intro e warns _ _
    exact ⟨by simp, fun k _ => rfl, by simp [V2.deleteAliasesGo]⟩
  | cons a rest ih =>
    intro e warns hkeys hnd
    simp only [List.nodup_cons] at hnd
    obtain ⟨ha, hrest⟩ := hnd
    cases hl : List.lookup a e.aliases with
    | none =>
      have hstep : V2.deleteAliasesGo (a :: rest) e warns =
          V2.deleteAliasesGo rest e
            (warns ++ ["alias \"" ++ a ++ "\" does not exist"]) := by
        simp [V2.deleteAliasesGo, hl]
      obtain ⟨ih1, ih2, ih3⟩ :=
        ih e (warns ++ ["alias \"" ++ a ++ "\" does not exist"]) hkeys hrest
      rw [hstep]
      refine ⟨?_, ?_, ?_⟩
      · intro n hn
        rcases List.mem_cons.mp hn with rfl | hn'
        · rw [ih2 n ha]; exact hl
        · exact ih1 n hn'
      · intro k hk
        exact ih2 k (fun hh => hk (List.mem_cons_of_mem _ hh))
      · rw [ih3, List.filter_cons]
        simp [hl, List.append_assoc]
    | some v =>
      have hstep : V2.deleteAliasesGo (a :: rest) e warns =
          V2.deleteAliasesGo rest
            ⟨e.aliases.eraseP (fun p => p.1 == a), e.previousExecutions, true⟩
            warns := by
        simp [V2.deleteAliasesGo, hl]
      have hkeys' :
          (((⟨e.aliases.eraseP (fun p => p.1 == a), e.previousExecutions, true⟩ :
            V2.Emacs)).aliases.map Prod.fst).Nodup :=
        keys_nodup_eraseP _ _ hkeys
      obtain ⟨ih1, ih2, ih3⟩ :=
        ih ⟨e.aliases.eraseP (fun p => p.1 == a), e.previousExecutions, true⟩
          warns hkeys' hrest
      rw [hstep]
      refine ⟨?_, ?_, ?_⟩
      · intro n hn
        rcases List.mem_cons.mp hn with rfl | hn'
        · rw [ih2 n ha]; exact lookup_eraseP_self e.aliases n hkeys
        · exact ih1 n hn'
      · intro k hk
        have hka : k ≠ a := fun hh => hk (hh ▸ List.mem_cons_self a rest)
        rw [ih2 k (fun hh => hk (List.mem_cons_of_mem _ hh))]
        exact lookup_eraseP_ne e.aliases k a hka
      · rw [ih3]
        have hfeq : rest.filter
              (fun n => (List.lookup n (e.aliases.eraseP (fun p => p.1 == a))).isNone) =
            rest.filter (fun n => (List.lookup n e.aliases).isNone) := by
          apply List.filter_congr
          intro x hx
          have hxa : x ≠ a := fun hh => ha (hh ▸ hx)
          rw [lookup_eraseP_ne e.aliases x a hxa]
        rw [hfeq, List.filter_cons]
        simp [hl]

/-! ## Claim theorems -/

/-- Claim C1: the pairing pass of `V2.OpenEditor` takes the first token as a
filename; each later token that parses as a base-10 integer and directly
follows a filename that has not yet absorbed an integer is consumed as that
filename's line number; every other token — including a bare integer whose
directly preceding filename already absorbed an integer, or that has no
preceding filename — starts a new filename and is never dropped; hence each
filename absorbs at most one integer and the number of `fileOpts` produced
equals the number of non-attached-integer tokens. -/
theorem interpret_matches_claimed_pairing (ergs : List String) :
    V2.interpret ergs = V2.interpretSpec ergs ∧
    (V2.interpret ergs).length + V2.attachedCount ergs = ergs.length := by
  have h := (pairLoop_eq_spec ergs).1
  refine ⟨h, ?_⟩
  rw [V2.interpret, h]
  exact interpretSpec_length ergs.length ergs (Nat.le_refl _)

/-- Claim C2: direct-mode rendering produces exactly
`["emacs", "--no-window-system"]` followed by the specs in reverse order of
how they were given, each spec with a non-zero line number contributing its
`+n` token immediately before its path and a line-0 spec only its path; in
particular the interpreted inputs `a.go`, `b.go`, `32` render as
`["emacs", "--no-window-system", "+32", "b.go", "a.go"]`. -/
theorem basic_renders_reversed_with_line_flags (fos : List fileOpts) :
    basic fos = ["emacs", "--no-window-system"] ++ (fos.reverse.map renderOne).flatten ∧
    basic (V2.interpret ["a.go", "b.go", "32"]) =
      ["emacs", "--no-window-system", "+32", "b.go", "a.go"] := by
  constructor
  · rw [basic, basicLoop_eq_append]
  · rfl

/-- Claim C3: the ledger append keeps `len ≤ capacity` after every append;
appending below capacity evicts nothing, and appending at or above capacity
drops records from the front until exactly the most recent `capacity`
records remain in their original order. -/
theorem ledgerAppend_bounded_fifo (limit : Nat) (prev : List (List String))
    (cmd : List String) :
    (ledgerAppend limit prev cmd).length ≤ limit ∧
    (prev.length < limit → ledgerAppend limit prev cmd = prev ++ [cmd]) ∧
    (limit ≤ prev.length →
      ledgerAppend limit prev cmd = (prev ++ [cmd]).drop (prev.length + 1 - limit) ∧
      (ledgerAppend limit prev cmd).length = limit) := by
  have hp : (prev ++ [cmd]).length = prev.length + 1 := by simp
  by_cases h : (prev ++ [cmd]).length > limit
  · have h1 : ledgerAppend limit prev cmd =
        (prev ++ [cmd]).drop ((prev ++ [cmd]).length - limit) := by
      simp only [ledgerAppend]; rw [if_pos h]
    rw [hp] at h h1
    refine ⟨?_, fun hlt => absurd hlt (by omega), fun _ => ⟨h1, ?_⟩⟩
    · rw [h1, List.length_drop, hp]; omega
    · rw [h1, List.length_drop, hp]; omega
  · have h1 : ledgerAppend limit prev cmd = prev ++ [cmd] := by
      simp only [ledgerAppend]; rw [if_neg h]
    rw [hp] at h
    exact ⟨by rw [h1, hp]; omega, fun _ => h1, fun hge => absurd hge (by omega)⟩

/-- Witness for C3: with capacity 2, appending a third record evicts the
oldest and leaves exactly the two most recent records in order. -/
theorem ledgerAppend_bounded_fifo_witness :
    (2 : Nat) ≤ 2 ∧
    ledgerAppend 2 [["a"], ["b"]] ["c"] = [["b"], ["c"]] ∧
    (ledgerAppend 2 [["a"], ["b"]] ["c"]).length = 2 :=
  ⟨Nat.le_refl 2, (ledgerAppend_bounded_fifo 2 [["a"], ["b"]] ["c"]).2.2 (by decide)⟩

/-- Claim C8: daemon-mode rendering with the debug-startup option set fails
with the incompatible-flags error for every spec sequence and never yields
an output command. -/
theorem daemon_rejects_debug_init (fos : List fileOpts) :
    daemon true fos = .error "--debug-init flag is not allowed in daemon mode" ∧
    ∀ cmd, daemon true fos ≠ .ok cmd := by
  refine ⟨rfl, fun cmd h => ?_⟩
  simp [daemon] at h

/-- Claim C4: invoked with zero file tokens, the editor-open operation fails
with the no-previous-executions error when the ledger is empty; when the
ledger is non-empty it returns only the most recently appended record and
leaves the whole session state (ledger and dirty flag) exactly as it was. -/
theorem openEditor_no_args_replays_last (statF : String → Option Bool)
    (af : Bool) (il : List Int) (e : V1.Emacs) :
    (e.previousExecutions = [] →
      V1.openEditor statF af [] il e = ⟨some "no previous executions", [], e⟩) ∧
    (e.previousExecutions ≠ [] →
      V1.openEditor statF af [] il e =
        ⟨none, [e.previousExecutions.getLastD []], e⟩) := by
  constructor
  · intro h; simp [V1.openEditor, h]
  · intro h; simp [V1.openEditor, h]

/-- Witness for C4: both the empty-ledger failure and the non-empty-ledger
replay at concrete states. -/
theorem openEditor_no_args_replays_last_witness :
    V1.openEditor (fun _ => none) false [] [] ⟨[], [], false⟩ =
      ⟨some "no previous executions", [], ⟨[], [], false⟩⟩ ∧
    V1.openEditor (fun _ => none) false [] [] ⟨[], [["emacs", "x.go"]], false⟩ =
      ⟨none, [["emacs", "x.go"]], ⟨[], [["emacs", "x.go"]], false⟩⟩ :=
  ⟨(openEditor_no_args_replays_last _ _ _ _).1 rfl,
   (openEditor_no_args_replays_last _ _ _ _).2 (by decide)⟩

/-- Claim C9: with exactly one token naming an existing directory, the
operation emits `["cd", token]` instead of any editor invocation —
regardless of the allow-new-files flag, the line-number list, and the rest
of the filesystem — and leaves the session state untouched (no pairing,
existence check, line handling, reversal, or ledger update happens). -/
theorem openEditor_single_directory_cds (statF : String → Option Bool)
    (af : Bool) (d : String) (il : List Int) (e : V1.Emacs)
    (h : statF d = some true) :
    V1.openEditor statF af [d] il e = ⟨none, [["cd", d]], e⟩ := by
  simp [V1.openEditor, h]

/-- Witness for C9: a concrete directory token produces the `cd` command. -/
theorem openEditor_single_directory_cds_witness :
    V1.openEditor (fun s => if s = "dirA" then some true else none) false
      ["dirA"] [7] ⟨[], [], false⟩ = ⟨none, [["cd", "dirA"]], ⟨[], [], false⟩⟩ :=
  openEditor_single_directory_cds _ false "dirA" [7] _ (by decide)

/-- Claim C6: `AddAlias` on a name already bound in the alias table fails
with the alias-already-exists error, and the state after the rejected call
is exactly the state before it: the existing binding is preserved, nothing
is added, and the dirty flag is not set. -/
theorem addAlias_existing_alias_rejected (osStat : String → Except String Bool)
    (absF : String → Except String String) (e : V2.Emacs) (a fn f : String)
    (h : List.lookup a e.aliases = some f) :
    V2.addAlias osStat absF e a fn =
      ⟨some ("alias already defined: (" ++ a ++ ": " ++ f ++ ")"), e⟩ := by
  unfold V2.addAlias
  rw [h]

/-- Witness for C6: re-adding a bound alias at a concrete table is rejected
and the table survives unchanged. -/
theorem addAlias_existing_alias_rejected_witness :
    V2.addAlias (fun _ => .ok false) (fun s => .ok s)
      ⟨[("grep", "/home/grep.go")], [], false⟩ "grep" "other.go" =
      ⟨some "alias already defined: (grep: /home/grep.go)",
       ⟨[("grep", "/home/grep.go")], [], false⟩⟩ :=
  addAlias_existing_alias_rejected _ _ _ "grep" "other.go" "/home/grep.go" (by decide)

/-- Claim C10 (implicit): `AddAlias` only accepts a regular file — a failing
stat of the target, or a target that is a directory, makes it fail before
any mutation, leaving the alias table and the dirty flag unchanged; this is
stricter than the open operation, which accepts a directory argument (it
answers it with a `cd` command rather than an error). -/
theorem addAlias_requires_regular_file (osStat : String → Except String Bool)
    (absF : String → Except String String) (e : V2.Emacs) (a fn : String)
    (hal : List.lookup a e.aliases = none) :
    (∀ msg, osStat fn = .error msg →
      V2.addAlias osStat absF e a fn = ⟨some ("error with file: " ++ msg), e⟩) ∧
    (osStat fn = .ok true →
      V2.addAlias osStat absF e a fn = ⟨some (fn ++ " is a directory"), e⟩) ∧
    (∀ (statF : String → Option Bool) (af : Bool) (il : List Int)
        (e1 : V1.Emacs) (d : String), statF d = some true →
      (V1.openEditor statF af [d] il e1).err = none) := by
  refine ⟨?_, ?_, ?_⟩
  · intro msg h
    unfold V2.addAlias
    rw [hal, h]
  · intro h
    unfold V2.addAlias
    rw [hal, h]
    rfl
  · intro statF af il e1 d h
    simp [V1.openEditor, h]

/-- Witness for C10: a failing stat and a directory target are both rejected
with the table untouched, while the open operation accepts a directory. -/
theorem addAlias_requires_regular_file_witness :
    V2.addAlias (fun _ => .error "no such file") (fun s => .ok s)
      ⟨[], [], false⟩ "al" "f.go" =
      ⟨some "error with file: no such file", ⟨[], [], false⟩⟩ ∧
    V2.addAlias (fun _ => .ok true) (fun s => .ok s) ⟨[], [], false⟩ "al" "d" =
      ⟨some "d is a directory", ⟨[], [], false⟩⟩ ∧
    (V1.openEditor (fun _ => some true) false ["d"] [] ⟨[], [], false⟩).err = none :=
  ⟨(addAlias_requires_regular_file (fun _ => .error "no such file") (fun s => .ok s)
      ⟨[], [], false⟩ "al" "f.go" rfl).1 "no such file" rfl,
   (addAlias_requires_regular_file (fun _ => .ok true) (fun s => .ok s)
      ⟨[], [], false⟩ "al" "d" rfl).2.1 rfl,
   (addAlias_requires_regular_file (fun _ => .ok true) (fun s => .ok s)
      ⟨[], [], false⟩ "al" "d" rfl).2.2 _ false [] ⟨[], [], false⟩ "d" rfl⟩

/-- Claim C5: without the allow-new-files flag, if any referenced file is
missing on disk the operation fails with the file-not-found error for the
first missing file the existence check encounters (the check scans tokens
last-given-first), emits no command, and leaves the session state — ledger
and dirty flag — exactly as it was before the call. -/
theorem openEditor_missing_file_fails_atomically (statF : String → Option Bool)
    (ergs : List String) (il : List Int) (e : V1.Emacs) (m : String)
    (hfind : ergs.reverse.find? (fun g => (statF g).isNone) = some m) :
    V1.openEditor statF false ergs il e =
      ⟨some ("file \"" ++ m ++ "\" does not exist; include \"new\" flag to create it"),
       [], e⟩ := by
  have hne : ergs ≠ [] := by
    rintro rfl
    simp at hfind
  have hcd : ¬ (ergs.length = 1 ∧ statF (ergs.getD 0 "") = some true) := by
    rintro ⟨h1, h2⟩
    obtain ⟨x, hx⟩ : ∃ x, ergs = [x] := by
      match ergs, h1 with
      | [x], _ => exact ⟨x, rfl⟩
    subst hx
    simp at h2
    simp [List.find?, h2] at hfind
  have herr : V1.buildFiles statF false ergs il =
      .error ("file \"" ++ m ++ "\" does not exist; include \"new\" flag to create it") := by
    apply buildFilesGo_error statF il ergs m ergs.length [] (Nat.le_refl _)
    rw [List.take_length]
    exact hfind
  unfold V1.openEditor
  rw [if_neg hne, if_neg hcd, herr]

/-- Witness for C5: with `x.go` missing and the state previously dirty with
a non-empty ledger, the call fails naming `x.go` and the state survives
bit-for-bit. -/
theorem openEditor_missing_file_fails_atomically_witness :
    V1.openEditor (fun s => if s = "x.go" then none else some false) false
      ["a.go", "x.go"] [] ⟨[], [["old"]], true⟩ =
      ⟨some "file \"x.go\" does not exist; include \"new\" flag to create it",
       [], ⟨[], [["old"]], true⟩⟩ :=
  openEditor_missing_file_fails_atomically _ ["a.go", "x.go"] [] _ "x.go" (by decide)

/-- Claim C7: batch alias deletion never aborts: the whole batch is
processed and the call reports success; with distinct batch names over a
well-formed table, every name bound in the table is removed, every name
not bound produces exactly one warning (and nothing else happens for it),
bindings outside the batch are untouched, and afterwards the table holds
none of the batch's names — it never gained the missing ones. -/
theorem deleteAliases_batch_continues (e : V2.Emacs) (names : List String)
    (hkeys : (e.aliases.map Prod.fst).Nodup) (hnames : names.Nodup) :
    (V2.deleteAliases e names).ok = true ∧
    (∀ n ∈ names, List.lookup n (V2.deleteAliases e names).state.aliases = none) ∧
    (∀ k, k ∉ names →
      List.lookup k (V2.deleteAliases e names).state.aliases =
        List.lookup k e.aliases) ∧
    (V2.deleteAliases e names).warnings =
      (names.filter (fun n => (List.lookup n e.aliases).isNone)).map
        (fun n => "alias \"" ++ n ++ "\" does not exist") := by
  obtain ⟨h1, h2, h3⟩ := deleteAliasesGo_spec names e [] hkeys hnames
  refine ⟨rfl, h1, h2, ?_⟩
  show (V2.deleteAliasesGo names e []).1 = _
  rw [h3]
  simp

/-- Witness for C7: the batch `["known", "unknown"]` over a table binding
only `known` succeeds, removes `known`, never adds `unknown`, and warns
exactly once about `unknown`. -/
theorem deleteAliases_batch_continues_witness :
    (V2.deleteAliases ⟨[("known", "/k.go")], [], false⟩ ["known", "unknown"]).ok = true ∧
    List.lookup "known"
      (V2.deleteAliases ⟨[("known", "/k.go")], [], false⟩
        ["known", "unknown"]).state.aliases = none ∧
    List.lookup "unknown"
      (V2.deleteAliases ⟨[("known", "/k.go")], [], false⟩
        ["known", "unknown"]).state.aliases = none ∧
    (V2.deleteAliases ⟨[("known", "/k.go")], [], false⟩ ["known", "unknown"]).warnings =
      ["alias \"unknown\" does not exist"] :=
  ⟨(deleteAliases_batch_continues ⟨[("known", "/k.go")], [], false⟩
      ["known", "unknown"] (by decide) (by decide)).1,
   (deleteAliases_batch_continues ⟨[("known", "/k.go")], [], false⟩
      ["known", "unknown"] (by decide) (by decide)).2.1 "known" (by decide),
   (deleteAliases_batch_continues ⟨[("known", "/k.go")], [], false⟩
      ["known", "unknown"] (by decide) (by decide)).2.1 "unknown" (by decide),
   (deleteAliases_batch_continues ⟨[("known", "/k.go")], [], false⟩
      ["known", "unknown"] (by decide) (by decide)).2.2.2⟩

end EmacsRepo
